import Mathlib

/-!
Verification development for the Market Indicator & Volume-Profile Engine of
the Crypto RSI Scanner repository.

The RSI-alert edge detector is embedded from the `App` component's alert
effect (src/unnamed/part_000, lines 324-365).  RSI values are modelled as
rationals; the JavaScript string alert keys `symbol-timeframe` are modelled
as pairs.  The oscillator calculators and the volume-profile builder live in
service modules that are not part of the provided sources; they are modelled
from the specification (sections 4.2-4.4), as marked on each definition.
-/

/-- Per-key status tracked by the alert effect:
`'overbought' | 'oversold' | 'neutral'`. -/
inductive AlertStatus where
  | overbought
  | oversold
  | neutral
deriving DecidableEq

/-- A notification emitted by `addNotification` in the alert effect
(`{ symbol, timeframe, rsi, type }`; `id`/`read` bookkeeping omitted). -/
structure AlertEvent where
  symbol : String
  timeframe : String
  rsi : ℚ
  kind : AlertStatus
deriving DecidableEq

/-- Alert key `(symbol, timeframe)`, modelling the string
key built by the effect. -/
abbrev AlertKey := String × String

/-- The `lastAlertedRsiStatus` map, modelled as an association list
(JavaScript object with insertion-ordered keys). -/
abbrev AlertState := List (AlertKey × AlertStatus)

/-- One symbol's entry in `symbolsData`: the symbol name and its RSI series
values (only the latest value is read by the alert effect). -/
structure SymbolEntry where
  symbol : String
  rsi : List ℚ
deriving DecidableEq

/-- JavaScript property read `m[k]` on the status map. -/
def lookupKey : AlertState → AlertKey → Option AlertStatus
  | [], _ => none
  | (k', v) :: rest, k => if k' = k then some v else lookupKey rest k

/-- Read of the previous status:
`lastAlertedRsiStatus[alertKey] || 'neutral'`. -/
def lookupStatus (m : AlertState) (k : AlertKey) : AlertStatus :=
  match lookupKey m k with
  | some s => s
  | none => AlertStatus.neutral

/-- JavaScript object assignment `newAlertStatus[alertKey] = currentStatus`:
overwrite the key if present, append it otherwise. -/
def setStatus : AlertState → AlertKey → AlertStatus → AlertState
  | [], k, v => [(k, v)]
  | (k', v') :: rest, k, v =>
      if k' = k then (k, v) :: rest else (k', v') :: setStatus rest k v

/-- The status computed for a latest RSI value `r` with thresholds 70/30
(the `currentStatus` assignments of the effect). -/
def rsiStatus (r : ℚ) : AlertStatus :=
  if 70 ≤ r then AlertStatus.overbought
  else if r ≤ 30 then AlertStatus.oversold
  else AlertStatus.neutral

/-- One key's transition: new status plus the optionally emitted event,
from the body of the `Object.keys(symbolsData).forEach` loop. -/
def stepKey (prev : AlertStatus) (symbol timeframe : String) (r : ℚ) :
    AlertStatus × Option AlertEvent :=
  if 70 ≤ r then
    (AlertStatus.overbought,
      if prev ≠ AlertStatus.overbought then
        some ⟨symbol, timeframe, r, AlertStatus.overbought⟩
      else none)
  else if r ≤ 30 then
    (AlertStatus.oversold,
      if prev ≠ AlertStatus.oversold then
        some ⟨symbol, timeframe, r, AlertStatus.oversold⟩
      else none)
  else (AlertStatus.neutral, none)

/-- The `forEach` loop over `symbolsData`: the previous status of every key is
read from the old map `old`, while updates accumulate in `acc`
(`newAlertStatus`), which is installed wholesale at the end. -/
def detectorLoop (timeframe : String) (old : AlertState) :
    List SymbolEntry → AlertState → AlertState × List AlertEvent
  | [], acc => (acc, [])
  | e :: rest, acc =>
      match e.rsi.getLast? with
      | none => detectorLoop timeframe old rest acc
      | some r =>
          let key : AlertKey := (e.symbol, timeframe)
          let prev := lookupStatus old key
          let out := stepKey prev e.symbol timeframe r
          let next := detectorLoop timeframe old rest (setStatus acc key out.1)
          (next.1, out.2.toList ++ next.2)

/-- The timeframes for which alerts may fire
(`ALLOWED_TIMEFRAMES_FOR_ALERTS`). -/
def allowedTimeframes : List String :=
  ["5m", "15m", "30m", "1h", "2h", "4h", "8h", "1d", "3d", "1w"]

/-- All values of the `Timeframe` type. -/
def allTimeframes : List String :=
  ["1m", "3m", "5m", "15m", "30m", "1h", "2h", "4h", "8h", "1d", "3d", "1w"]

/-- The timeframes excluded from alerting. -/
def gatedTimeframes : List String :=
  allTimeframes.filter (fun tf => tf ∉ allowedTimeframes)

/-- Inputs read by the alert effect on one refresh. -/
structure RefreshInput where
  areAlertsEnabled : Bool
  timeframe : String
  symbolsData : List SymbolEntry
deriving DecidableEq

/-- The whole RSI-alert effect: the early-return guard, then the loop over
`symbolsData` starting from a copy of the old map, then the single
`setLastAlertedRsiStatus(newAlertStatus)` installation. -/
def rsiAlertEffect (inp : RefreshInput) (old : AlertState) :
    AlertState × List AlertEvent :=
  if ¬ inp.areAlertsEnabled ∨ inp.timeframe ∉ allowedTimeframes ∨
      inp.symbolsData = [] then
    (old, [])
  else
    detectorLoop inp.timeframe old inp.symbolsData old

/-- Five successive refresh cycles feeding one RSI value per step for a
single key, collecting the emitted events in order. -/
def runTrace (tf s : String) : List ℚ → AlertState → AlertState × List AlertEvent
  | [], st => (st, [])
  | r :: rest, st =>
      let out := rsiAlertEffect ⟨true, tf, [⟨s, [r]⟩]⟩ st
      let next := runTrace tf s rest out.1
      (next.1, out.2 ++ next.2)

lemma stepKey_fst (prev : AlertStatus) (s tf : String) (r : ℚ) :
    (stepKey prev s tf r).1 = rsiStatus r := by
  unfold stepKey rsiStatus
  split_ifs <;> rfl

lemma lookupKey_setStatus_self (m : AlertState) (k : AlertKey) (v : AlertStatus) :
    lookupKey (setStatus m k v) k = some v := by
  induction m with
  | nil => simp [setStatus, lookupKey]
  | cons p rest ih =>
      obtain ⟨k', v'⟩ := p
      by_cases h : k' = k
      · simp [setStatus, h, lookupKey]
      · simp [setStatus, h, lookupKey, ih]

lemma lookupKey_setStatus_ne (m : AlertState) (k : AlertKey) (v : AlertStatus)
    (k₂ : AlertKey) (h : k ≠ k₂) :
    lookupKey (setStatus m k v) k₂ = lookupKey m k₂ := by
  induction m with
  | nil => simp [setStatus, lookupKey, h]
  | cons p rest ih =>
      obtain ⟨k', v'⟩ := p
      by_cases hk : k' = k
      · subst hk
        simp [setStatus, lookupKey, h]
      · simp [setStatus, hk, lookupKey, ih]

lemma isSome_lookupKey_setStatus (m : AlertState) (k : AlertKey) (v : AlertStatus)
    (k₂ : AlertKey) (h : (lookupKey m k₂).isSome) :
    (lookupKey (setStatus m k v) k₂).isSome := by
  by_cases hk : k = k₂
  · subst hk
    simp [lookupKey_setStatus_self]
  · rwa [lookupKey_setStatus_ne _ _ _ _ hk]

lemma detectorLoop_lookup_untouched (tf : String) (old : AlertState)
    (entries : List SymbolEntry) (acc : AlertState) (k : AlertKey)
    (hk : ∀ e ∈ entries, (e.symbol, tf) ≠ k) :
    lookupKey (detectorLoop tf old entries acc).1 k = lookupKey acc k := by
  induction entries generalizing acc with
  | nil => rfl
  | cons e rest ih =>
      have hke : (e.symbol, tf) ≠ k := hk e (List.mem_cons_self e rest)
      have hkr : ∀ x ∈ rest, (x.symbol, tf) ≠ k :=
        fun x hx => hk x (List.mem_cons_of_mem e hx)
      cases h : e.rsi.getLast? with
      | none =>
          simp only [detectorLoop, h]
          exact ih _ hkr
      | some r =>
          simp only [detectorLoop, h]
          rw [ih _ hkr, lookupKey_setStatus_ne _ _ _ _ hke]

lemma detectorLoop_lookup_processed (tf : String) (old : AlertState)
    (entries : List SymbolEntry) (acc : AlertState) (e : SymbolEntry) (r : ℚ)
    (hr : e.rsi.getLast? = some r) (he : e ∈ entries)
    (hnodup : (entries.map SymbolEntry.symbol).Nodup) :
    lookupKey (detectorLoop tf old entries acc).1 (e.symbol, tf) =
      some (rsiStatus r) := by
  revert he hnodup
  induction entries generalizing acc with
  | nil => intro he _; cases he
  | cons e' rest ih =>
      intro he hnodup
      rw [List.map_cons, List.nodup_cons] at hnodup
      cases List.mem_cons.mp he with
      | inl heq =>
          subst heq
          have hnot : ∀ x ∈ rest, (x.symbol, tf) ≠ (e.symbol, tf) := by
            intro x hx hcontra
            have hx' : x.symbol = e.symbol := congrArg Prod.fst hcontra
            exact hnodup.1 (hx' ▸ List.mem_map_of_mem SymbolEntry.symbol hx)
          simp only [detectorLoop, hr]
          rw [detectorLoop_lookup_untouched _ _ _ _ _ hnot, stepKey_fst,
            lookupKey_setStatus_self]
      | inr hmem =>
          cases h : e'.rsi.getLast? with
          | none =>
              simp only [detectorLoop, h]
              exact ih _ hmem hnodup.2
          | some r' =>
              simp only [detectorLoop, h]
              exact ih _ hmem hnodup.2

lemma detectorLoop_isSome (tf : String) (old : AlertState)
    (entries : List SymbolEntry) (acc : AlertState) (k : AlertKey)
    (h : (lookupKey acc k).isSome) :
    (lookupKey (detectorLoop tf old entries acc).1 k).isSome := by
  induction entries generalizing acc with
  | nil => exact h
  | cons e rest ih =>
      cases hl : e.rsi.getLast? with
      | none =>
          simp only [detectorLoop, hl]
          exact ih _ h
      | some r =>
          simp only [detectorLoop, hl]
          exact ih _ (isSome_lookupKey_setStatus _ _ _ _ h)

/-- C1: one detector step over a single key with latest RSI value `r` sets the
key to `overbought` when `70 ≤ r` (emitting an overbought event exactly when
the previous status was not `overbought`), to `oversold` when `r ≤ 30`
(emitting an oversold event exactly when the previous status was not
`oversold`), and to `neutral` otherwise with no event; a key absent from the
map has previous status `neutral`. -/
theorem edgeDetector_transition (old : AlertState) (s tf : String)
    (rs : List ℚ) (r : ℚ) (hr : rs.getLast? = some r) :
    (70 ≤ r →
      detectorLoop tf old [⟨s, rs⟩] old =
        (setStatus old (s, tf) AlertStatus.overbought,
         if lookupStatus old (s, tf) ≠ AlertStatus.overbought then
           [⟨s, tf, r, AlertStatus.overbought⟩] else [])) ∧
    (r ≤ 30 →
      detectorLoop tf old [⟨s, rs⟩] old =
        (setStatus old (s, tf) AlertStatus.oversold,
         if lookupStatus old (s, tf) ≠ AlertStatus.oversold then
           [⟨s, tf, r, AlertStatus.oversold⟩] else [])) ∧
    (30 < r → r < 70 →
      detectorLoop tf old [⟨s, rs⟩] old =
        (setStatus old (s, tf) AlertStatus.neutral, [])) ∧
    (lookupKey old (s, tf) = none →
      lookupStatus old (s, tf) = AlertStatus.neutral) := by
  refine ⟨?_, ?_, ?_, ?_⟩
  · intro h
    by_cases hp : lookupStatus old (s, tf) = AlertStatus.overbought <;>
      simp [detectorLoop, hr, stepKey, h, hp]
  · intro h
    have h' : ¬ (70 : ℚ) ≤ r := by linarith
    by_cases hp : lookupStatus old (s, tf) = AlertStatus.oversold <;>
      simp [detectorLoop, hr, stepKey, h, h', hp]
  · intro h1 h2
    have h' : ¬ (70 : ℚ) ≤ r := by linarith
    have h'' : ¬ r ≤ (30 : ℚ) := by linarith
    simp [detectorLoop, hr, stepKey, h', h'']
  · intro h
    simp [lookupStatus, h]

/-- C1 witness: at `r = 85` over an empty map, the step installs `overbought`
and emits one overbought event. -/
theorem edgeDetector_transition_witness :
    detectorLoop "15m" [] [⟨"BTCUSDT", [85]⟩] [] =
      ([(("BTCUSDT", "15m"), AlertStatus.overbought)],
       [⟨"BTCUSDT", "15m", 85, AlertStatus.overbought⟩]) := by
  have h := (edgeDetector_transition [] "BTCUSDT" "15m" [85] 85 rfl).1 (by norm_num)
  rw [h]
  decide

/-- C4: feeding the RSI sequence `[65, 72, 75, 68, 71]` for one key through
five successive detector steps from an empty state emits exactly two
overbought events, at the steps observing 72 and 71, and no other event. -/
theorem edge_trace_events :
    (runTrace "15m" "BTCUSDT" [65, 72, 75, 68, 71] []).2 =
      [⟨"BTCUSDT", "15m", 72, AlertStatus.overbought⟩,
       ⟨"BTCUSDT", "15m", 71, AlertStatus.overbought⟩] := by decide

/-- C7: the detector pass computes every processed key's new status from the
old map alone (the status read feeding each transition is `lookupStatus old`)
and returns one whole new map; keys outside the processed set keep exactly
their old binding, so the installed map is a pure function of the old map and
the refresh data with no intermediate mixture visible. -/
theorem alertState_atomic_swap (tf : String) (old : AlertState)
    (entries : List SymbolEntry) (e : SymbolEntry) (r : ℚ) (k : AlertKey)
    (hnodup : (entries.map SymbolEntry.symbol).Nodup)
    (he : e ∈ entries) (hr : e.rsi.getLast? = some r)
    (hk : ∀ x ∈ entries, (x.symbol, tf) ≠ k) :
    lookupKey (detectorLoop tf old entries old).1 (e.symbol, tf) =
      some (stepKey (lookupStatus old (e.symbol, tf)) e.symbol tf r).1 ∧
    lookupKey (detectorLoop tf old entries old).1 k = lookupKey old k := by
  constructor
  · rw [stepKey_fst]
    exact detectorLoop_lookup_processed tf old entries old e r hr he hnodup
  · exact detectorLoop_lookup_untouched tf old entries old k hk

/-- C7 witness: two symbols processed against a map holding an unrelated key;
the processed key gets its old-map-derived status and the unrelated key keeps
its old binding. -/
theorem alertState_atomic_swap_witness :
    lookupKey (detectorLoop "15m" [(("ETHUSDT", "15m"), AlertStatus.oversold)]
        [⟨"BTCUSDT", [75]⟩, ⟨"SOLUSDT", [40]⟩]
        [(("ETHUSDT", "15m"), AlertStatus.oversold)]).1 ("BTCUSDT", "15m") =
      some (stepKey (lookupStatus [(("ETHUSDT", "15m"), AlertStatus.oversold)]
        ("BTCUSDT", "15m")) "BTCUSDT" "15m" 75).1 ∧
    lookupKey (detectorLoop "15m" [(("ETHUSDT", "15m"), AlertStatus.oversold)]
        [⟨"BTCUSDT", [75]⟩, ⟨"SOLUSDT", [40]⟩]
        [(("ETHUSDT", "15m"), AlertStatus.oversold)]).1 ("ETHUSDT", "15m") =
      lookupKey [(("ETHUSDT", "15m"), AlertStatus.oversold)] ("ETHUSDT", "15m") :=
  alertState_atomic_swap "15m" [(("ETHUSDT", "15m"), AlertStatus.oversold)]
    [⟨"BTCUSDT", [75]⟩, ⟨"SOLUSDT", [40]⟩] ⟨"BTCUSDT", [75]⟩ 75 ("ETHUSDT", "15m")
    (by decide) (by decide) rfl (by decide)

/-- C8: a key present in the alert-state map before a refresh is still present
after it — the effect only copies the old map and overwrites or adds keys,
never deletes one. -/
theorem alertState_keys_persist (inp : RefreshInput) (old : AlertState)
    (k : AlertKey) (h : (lookupKey old k).isSome) :
    (lookupKey (rsiAlertEffect inp old).1 k).isSome := by
  unfold rsiAlertEffect
  split
  · exact h
  · exact detectorLoop_isSome _ _ _ _ _ h

/-- C8 witness: a key overwritten by the refresh is still present. -/
theorem alertState_keys_persist_witness :
    (lookupKey (rsiAlertEffect ⟨true, "15m", [⟨"BTCUSDT", [50]⟩]⟩
        [(("BTCUSDT", "15m"), AlertStatus.overbought)]).1
      ("BTCUSDT", "15m")).isSome :=
  alertState_keys_persist ⟨true, "15m", [⟨"BTCUSDT", [50]⟩]⟩
    [(("BTCUSDT", "15m"), AlertStatus.overbought)] ("BTCUSDT", "15m") (by decide)

/-- C10: when alerts are disabled, or the timeframe is 1m or 3m (exactly the
timeframes missing from the allowed list), or the symbol data map is empty,
the alert effect emits no event and returns the old map unchanged. -/
theorem alert_gating (enabled : Bool) (tf : String) (data : List SymbolEntry)
    (old : AlertState)
    (h : enabled = false ∨ tf = "1m" ∨ tf = "3m" ∨ data = []) :
    rsiAlertEffect ⟨enabled, tf, data⟩ old = (old, []) ∧
    gatedTimeframes = ["1m", "3m"] := by
  refine ⟨?_, by decide⟩
  unfold rsiAlertEffect
  rcases h with h | h | h | h
  · simp [h]
  · subst h
    have hc : ("1m" : String) ∉ allowedTimeframes := by decide
    simp [hc]
  · subst h
    have hc : ("3m" : String) ∉ allowedTimeframes := by decide
    simp [hc]
  · simp [h]

/-- C10 witness: on timeframe 1m with alerts enabled and a symbol whose latest
RSI is 95 (beyond the overbought threshold), nothing is emitted and the state
is unchanged. -/
theorem alert_gating_witness :
    rsiAlertEffect ⟨true, "1m", [⟨"BTCUSDT", [95]⟩]⟩ [] = ([], []) ∧
    gatedTimeframes = ["1m", "3m"] :=
  alert_gating true "1m" [⟨"BTCUSDT", [95]⟩] [] (Or.inr (Or.inl rfl))

/-- Wilder period constant `P = 14`. -/
def wilderPeriod : ℕ := 14

/-- Modelled from the spec: per-step signed close deltas (section 4.2 step 1);
the oscillator service module is not among the provided sources. -/
def deltas (closes : List ℚ) : List ℚ :=
  List.zipWith (fun a b => a - b) closes.tail closes

/-- Modelled from the spec: one Wilder smoothing step on the running
(average gain, average loss) pair (section 4.2 step 3). -/
def wilderStep (p : ℚ × ℚ) (d : ℚ) : ℚ × ℚ :=
  ((p.1 * ((wilderPeriod : ℚ) - 1) + max d 0) / (wilderPeriod : ℚ),
   (p.2 * ((wilderPeriod : ℚ) - 1) + max (-d) 0) / (wilderPeriod : ℚ))

/-- Modelled from the spec: RSI from average gain/loss, with the degenerate
denominators resolved to sentinel values instead of errors
(section 4.2 step 4). -/
def rsiFromAvg (g l : ℚ) : ℚ :=
  if l = 0 then (if g = 0 then 50 else 100) else 100 - 100 / (1 + g / l)

/-- Modelled from the spec: the RSI series of the Wilder oscillator
calculator (section 4.2) — empty when the candle count is at most `P`,
otherwise the seed simple averages over the first `P` deltas followed by one
Wilder-smoothed point per remaining delta. -/
def calculateRSI (closes : List ℚ) : List ℚ :=
  if closes.length ≤ wilderPeriod then []
  else
    let ds := deltas closes
    let seedG := ((ds.take wilderPeriod).map (fun d => max d 0)).sum /
      (wilderPeriod : ℚ)
    let seedL := ((ds.take wilderPeriod).map (fun d => max (-d) 0)).sum /
      (wilderPeriod : ℚ)
    ((ds.drop wilderPeriod).scanl wilderStep (seedG, seedL)).map
      (fun p => rsiFromAvg p.1 p.2)

/-- Modelled from the spec: trailing simple moving average over window `w`
(sections 4.2 step 6 and 4.3). -/
def smaSeries (xs : List ℚ) (w : ℕ) : List ℚ :=
  (List.range (xs.length + 1 - w)).map (fun i => ((xs.drop i).take w).sum / (w : ℚ))

/-- The `sma` output series of the oscillator calculator. -/
def rsiSma (closes : List ℚ) : List ℚ :=
  smaSeries (calculateRSI closes) wilderPeriod

/-- Smallest element of a list (0 for the empty list). -/
def listMinQ : List ℚ → ℚ
  | [] => 0
  | x :: xs => xs.foldl min x

/-- Largest element of a list (0 for the empty list). -/
def listMaxQ : List ℚ → ℚ
  | [] => 0
  | x :: xs => xs.foldl max x

/-- Stochastic lookback period `L = 14`. -/
def stochLookback : ℕ := 14

/-- Modelled from the spec: one Stochastic %K point over an RSI lookback
window, resolved to 50 when the window's range is zero (section 4.3). -/
def stochKpoint (w : List ℚ) : ℚ :=
  let lo := listMinQ w
  let hi := listMaxQ w
  if hi = lo then 50 else 100 * (w.getLastD 0 - lo) / (hi - lo)

/-- Modelled from the spec: the %K series over the RSI series
(section 4.3). -/
def stochK (rsi : List ℚ) : List ℚ :=
  (List.range (rsi.length + 1 - stochLookback)).map
    (fun i => stochKpoint ((rsi.drop i).take stochLookback))

/-- Every value of the list lies in the closed interval [0, 100]. -/
def rsiInBounds (l : List ℚ) : Prop := ∀ r ∈ l, 0 ≤ r ∧ r ≤ 100

lemma deltas_length (closes : List ℚ) :
    (deltas closes).length = closes.length - 1 := by
  unfold deltas
  rw [List.length_zipWith, List.length_tail]
  omega

lemma wilderStep_nonneg (p : ℚ × ℚ) (d : ℚ) (hp : 0 ≤ p.1 ∧ 0 ≤ p.2) :
    0 ≤ (wilderStep p d).1 ∧ 0 ≤ (wilderStep p d).2 := by
  unfold wilderStep
  constructor
  · exact div_nonneg
      (add_nonneg (mul_nonneg hp.1 (by norm_num [wilderPeriod])) (le_max_right d 0))
      (by norm_num [wilderPeriod])
  · exact div_nonneg
      (add_nonneg (mul_nonneg hp.2 (by norm_num [wilderPeriod])) (le_max_right (-d) 0))
      (by norm_num [wilderPeriod])

lemma scanl_wilder_nonneg (l : List ℚ) (p : ℚ × ℚ) (hp : 0 ≤ p.1 ∧ 0 ≤ p.2) :
    ∀ q ∈ List.scanl wilderStep p l, 0 ≤ q.1 ∧ 0 ≤ q.2 := by
  induction l generalizing p with
  | nil =>
      intro q hq
      rw [List.scanl_nil, List.mem_singleton] at hq
      subst hq
      exact hp
  | cons d rest ih =>
      intro q hq
      rw [List.scanl_cons] at hq
      rcases List.mem_cons.mp hq with h | h
      · subst h; exact hp
      · exact ih _ (wilderStep_nonneg p d hp) q h

lemma rsiFromAvg_bounds (g l : ℚ) (hg : 0 ≤ g) (hl : 0 ≤ l) :
    0 ≤ rsiFromAvg g l ∧ rsiFromAvg g l ≤ 100 := by
  unfold rsiFromAvg
  by_cases h : l = 0
  · rw [if_pos h]
    by_cases h2 : g = 0
    · rw [if_pos h2]
      norm_num
    · rw [if_neg h2]
      norm_num
  · rw [if_neg h]
    have hl' : 0 < l := lt_of_le_of_ne hl (Ne.symm h)
    have hrs : 0 ≤ g / l := div_nonneg hg hl
    have h1 : (0 : ℚ) < 1 + g / l := by linarith
    constructor
    · have hle : 100 / (1 + g / l) ≤ 100 := by
        apply div_le_self (by norm_num) (by linarith)
      linarith
    · have hpos : 0 < 100 / (1 + g / l) := by positivity
      linarith

/-- C3: for candle close series longer than `P = 14`, the RSI series has
exactly `length - 14` points, all within [0, 100]; for series of length at
most 14 both the RSI and SMA series are empty rather than an error. -/
theorem rsi_length_bounds (closes : List ℚ) :
    (wilderPeriod < closes.length →
      (calculateRSI closes).length = closes.length - wilderPeriod ∧
      rsiInBounds (calculateRSI closes)) ∧
    (closes.length ≤ wilderPeriod →
      calculateRSI closes = [] ∧ rsiSma closes = []) := by
  constructor
  · intro h
    have hnot : ¬ closes.length ≤ wilderPeriod := by omega
    constructor
    · unfold calculateRSI
      rw [if_neg hnot]
      simp only [List.length_map, List.length_scanl, List.length_drop,
        deltas_length]
      omega
    · intro r hr
      unfold calculateRSI at hr
      rw [if_neg hnot] at hr
      simp only [List.mem_map] at hr
      obtain ⟨p, hp, hpr⟩ := hr
      have hseed : (0 : ℚ) ≤
          (((deltas closes).take wilderPeriod).map (fun d => max d 0)).sum /
            (wilderPeriod : ℚ) ∧
          (0 : ℚ) ≤
          (((deltas closes).take wilderPeriod).map (fun d => max (-d) 0)).sum /
            (wilderPeriod : ℚ) := by
        constructor <;>
        · apply div_nonneg _ (by norm_num [wilderPeriod])
          apply List.sum_nonneg
          intro x hx
          simp only [List.mem_map] at hx
          obtain ⟨d, _, hd⟩ := hx
          rw [← hd]
          exact le_max_right _ 0
      have hq := scanl_wilder_nonneg _ _ hseed p hp
      rw [← hpr]
      exact rsiFromAvg_bounds p.1 p.2 hq.1 hq.2
  · intro h
    have h1 : calculateRSI closes = [] := by
      unfold calculateRSI
      rw [if_pos h]
    refine ⟨h1, ?_⟩
    unfold rsiSma smaSeries
    rw [h1]
    simp [wilderPeriod]

/-- Concrete close series of length 15 (the spec's section 8 scenario). -/
def wCloses15 : List ℚ :=
  [10, 11, 12, 13, 14, 15, 14, 13, 12, 11, 10, 9, 8, 7, 6]

/-- Concrete close series of length 3 (below the warm-up length). -/
def wShortCloses : List ℚ := [1, 2, 3]

/-- C3 witness: the 15-point series yields one bounded RSI point; the 3-point
series yields empty RSI and SMA series. -/
theorem rsi_length_bounds_witness :
    ((calculateRSI wCloses15).length = wCloses15.length - wilderPeriod ∧
      rsiInBounds (calculateRSI wCloses15)) ∧
    (calculateRSI wShortCloses = [] ∧ rsiSma wShortCloses = []) :=
  ⟨(rsi_length_bounds wCloses15).1 (by decide),
   (rsi_length_bounds wShortCloses).2 (by decide)⟩

/-- C6: degenerate oscillator denominators yield sentinel values, not
failures: zero average loss with positive average gain gives RSI 100, a fully
flat market gives RSI 50, and a zero-range Stochastic lookback window gives
%K 50. -/
theorem degenerate_sentinels (g : ℚ) (hg : 0 < g) (w : List ℚ)
    (hw : listMaxQ w = listMinQ w) :
    rsiFromAvg g 0 = 100 ∧ rsiFromAvg 0 0 = 50 ∧ stochKpoint w = 50 := by
  refine ⟨?_, by norm_num [rsiFromAvg], ?_⟩
  · unfold rsiFromAvg
    rw [if_pos rfl, if_neg (ne_of_gt hg)]
  · unfold stochKpoint
    simp [hw]

/-- C6 witness: average gain 1 with zero loss, the flat pair, and the
constant window [4, 4]. -/
theorem degenerate_sentinels_witness :
    rsiFromAvg 1 0 = 100 ∧ rsiFromAvg 0 0 = 50 ∧ stochKpoint [4, 4] = 50 :=
  degenerate_sentinels 1 (by norm_num) [4, 4] (by decide)

/-- A normalized candle as consumed by the volume profile builder
(the numeric fields of `PriceDataPoint`). -/
structure Candle where
  low : ℚ
  high : ℚ
  close : ℚ
  volume : ℚ
  takerBuyVolume : ℚ
deriving DecidableEq

/-- One price-level bucket of a volume profile. -/
structure VolumeBucket where
  priceLevel : ℚ
  volume : ℚ
  buyVolume : ℚ
  sellVolume : ℚ
deriving DecidableEq

/-- The `VolumeProfileData` result shape. -/
structure VolumeProfile where
  buckets : List VolumeBucket
  poc : ℚ
  vah : ℚ
  val : ℚ
  maxBucketVolume : ℚ
  priceMin : ℚ
  priceMax : ℚ
deriving DecidableEq

/-- Minimum low across the window (section 4.4 step 1). -/
def priceMinOf (candles : List Candle) : ℚ :=
  listMinQ (candles.map Candle.low)

/-- Maximum high across the window (section 4.4 step 1). -/
def priceMaxOf (candles : List Candle) : ℚ :=
  listMaxQ (candles.map Candle.high)

/-- Width of one of the `res` equal buckets (section 4.4 step 2). -/
def bucketSizeOf (candles : List Candle) (res : ℕ) : ℚ :=
  (priceMaxOf candles - priceMinOf candles) / (res : ℚ)

/-- Modelled from the spec: index of the bucket containing a close price
(section 4.4 step 3), clamped into `[0, res)`; the volume-profile service
module is not among the provided sources. -/
def bucketIdx (candles : List Candle) (res : ℕ) (c : ℚ) : ℕ :=
  min (Int.toNat ⌊(c - priceMinOf candles) / bucketSizeOf candles res⌋) (res - 1)

/-- Total volume assigned to bucket `i` (section 4.4 step 3). -/
def bucketVolume (candles : List Candle) (res i : ℕ) : ℚ :=
  ((candles.filter (fun cd => bucketIdx candles res cd.close = i)).map
    Candle.volume).sum

/-- Taker-buy volume assigned to bucket `i` (section 4.4 step 4). -/
def bucketBuyVolume (candles : List Candle) (res i : ℕ) : ℚ :=
  ((candles.filter (fun cd => bucketIdx candles res cd.close = i)).map
    Candle.takerBuyVolume).sum

/-- Midpoint price level of bucket `i` (section 4.4 step 2). -/
def bucketLevel (candles : List Candle) (res : ℕ) (i : ℕ) : ℚ :=
  priceMinOf candles + ((i : ℚ) + 1 / 2) * bucketSizeOf candles res

/-- The bucket volumes, in ascending price order. -/
def volsOf (candles : List Candle) (res : ℕ) : List ℚ :=
  (List.range res).map (bucketVolume candles res)

/-- Modelled from the spec: index of the maximum-volume bucket, lowest-priced
bucket on ties (section 4.4 step 5). -/
def pocIdxOf (candles : List Candle) (res : ℕ) : ℕ :=
  (volsOf candles res).indexOf (listMaxQ (volsOf candles res))

/-- Modelled from the spec: value-area expansion from the POC bucket
(section 4.4 step 6).  Starting from the POC bucket's range and volume, the
contiguous range grows one bucket at a time toward the neighbor with the
greater volume (downward on ties, or toward the only existing neighbor) until
the accumulated volume reaches the target or both bounds are exhausted. -/
def expandVA (vols : List ℚ) (target : ℚ) :
    ℕ → ℕ → ℕ → ℚ → ℕ × ℕ
  | 0, lo, hi, _ => (lo, hi)
  | fuel + 1, lo, hi, acc =>
      if target ≤ acc then (lo, hi)
      else if 0 < lo then
        if hi + 1 < vols.length then
          if vols.getD (hi + 1) 0 ≤ vols.getD (lo - 1) 0 then
            expandVA vols target fuel (lo - 1) hi (acc + vols.getD (lo - 1) 0)
          else
            expandVA vols target fuel lo (hi + 1) (acc + vols.getD (hi + 1) 0)
        else
          expandVA vols target fuel (lo - 1) hi (acc + vols.getD (lo - 1) 0)
      else if hi + 1 < vols.length then
        expandVA vols target fuel lo (hi + 1) (acc + vols.getD (hi + 1) 0)
      else (lo, hi)

/-- The final value-area index range `(lo, hi)` of the profile. -/
def vaRangeOf (candles : List Candle) (res : ℕ) : ℕ × ℕ :=
  expandVA (volsOf candles res) ((7 / 10 : ℚ) * (volsOf candles res).sum) res
    (pocIdxOf candles res) (pocIdxOf candles res)
    ((volsOf candles res).getD (pocIdxOf candles res) 0)

/-- Modelled from the spec: the volume profile builder (section 4.4);
`none` models the `InsufficientData` failure. -/
def calculateVolumeProfile (candles : List Candle) (res : ℕ) :
    Option VolumeProfile :=
  if candles.length < 2 then none
  else if priceMaxOf candles = priceMinOf candles then none
  else
    some
      { buckets := (List.range res).map (fun i =>
          { priceLevel := bucketLevel candles res i
            volume := bucketVolume candles res i
            buyVolume := bucketBuyVolume candles res i
            sellVolume := bucketVolume candles res i -
              bucketBuyVolume candles res i })
        poc := bucketLevel candles res (pocIdxOf candles res)
        vah := bucketLevel candles res (vaRangeOf candles res).2
        val := bucketLevel candles res (vaRangeOf candles res).1
        maxBucketVolume := (volsOf candles res).getD (pocIdxOf candles res) 0
        priceMin := priceMinOf candles
        priceMax := priceMaxOf candles }

lemma foldl_min_le_init (xs : List ℚ) (a : ℚ) : xs.foldl min a ≤ a := by
  induction xs generalizing a with
  | nil => simp
  | cons x xs ih =>
      rw [List.foldl_cons]
      exact le_trans (ih (min a x)) (min_le_left a x)

lemma foldl_min_le_mem (xs : List ℚ) (a x : ℚ) (hx : x ∈ xs) :
    xs.foldl min a ≤ x := by
  induction xs generalizing a with
  | nil => cases hx
  | cons y ys ih =>
      rw [List.foldl_cons]
      rcases List.mem_cons.mp hx with h | h
      · subst h
        exact le_trans (foldl_min_le_init ys (min a x)) (min_le_right a x)
      · exact ih _ h

lemma listMinQ_le (l : List ℚ) (x : ℚ) (hx : x ∈ l) : listMinQ l ≤ x := by
  cases l with
  | nil => cases hx
  | cons y ys =>
      rcases List.mem_cons.mp hx with h | h
      · subst h
        exact foldl_min_le_init ys x
      · exact foldl_min_le_mem ys y x h

lemma init_le_foldl_max (xs : List ℚ) (a : ℚ) : a ≤ xs.foldl max a := by
  induction xs generalizing a with
  | nil => simp
  | cons x xs ih =>
      rw [List.foldl_cons]
      exact le_trans (le_max_left a x) (ih (max a x))

lemma mem_le_foldl_max (xs : List ℚ) (a x : ℚ) (hx : x ∈ xs) :
    x ≤ xs.foldl max a := by
  induction xs generalizing a with
  | nil => cases hx
  | cons y ys ih =>
      rw [List.foldl_cons]
      rcases List.mem_cons.mp hx with h | h
      · subst h
        exact le_trans (le_max_right a x) (init_le_foldl_max ys (max a x))
      · exact ih _ h

lemma le_listMaxQ (l : List ℚ) (x : ℚ) (hx : x ∈ l) : x ≤ listMaxQ l := by
  cases l with
  | nil => cases hx
  | cons y ys =>
      rcases List.mem_cons.mp hx with h | h
      · subst h
        exact init_le_foldl_max ys x
      · exact mem_le_foldl_max ys y x h

lemma foldl_max_mem (xs : List ℚ) (a : ℚ) : xs.foldl max a ∈ a :: xs := by
  induction xs generalizing a with
  | nil => simp
  | cons x xs ih =>
      rw [List.foldl_cons]
      rcases List.mem_cons.mp (ih (max a x)) with h | h
      · rw [h]
        rcases max_choice a x with hm | hm <;> rw [hm]
        · exact List.mem_cons_self _ _
        · exact List.mem_cons_of_mem _ (List.mem_cons_self _ _)
      · exact List.mem_cons_of_mem _ (List.mem_cons_of_mem _ h)

lemma listMaxQ_mem (l : List ℚ) (h : l ≠ []) : listMaxQ l ∈ l := by
  cases l with
  | nil => exact absurd rfl h
  | cons y ys => exact foldl_max_mem ys y

lemma volsOf_length (candles : List Candle) (res : ℕ) :
    (volsOf candles res).length = res := by
  simp [volsOf]

lemma pocIdxOf_lt (candles : List Candle) (res : ℕ) (hres : 0 < res) :
    pocIdxOf candles res < res := by
  have hlen := volsOf_length candles res
  have hne : volsOf candles res ≠ [] := by
    intro h
    rw [h] at hlen
    simp at hlen
    omega
  have hmem := listMaxQ_mem _ hne
  have := List.indexOf_lt_length.mpr hmem
  unfold pocIdxOf
  omega

lemma expandVA_range (vols : List ℚ) (target : ℚ) (fuel : ℕ) (p : ℕ) :
    ∀ (lo hi : ℕ) (acc : ℚ), lo ≤ p → p ≤ hi → hi < vols.length →
    (expandVA vols target fuel lo hi acc).1 ≤ p ∧
    p ≤ (expandVA vols target fuel lo hi acc).2 ∧
    (expandVA vols target fuel lo hi acc).2 < vols.length := by
  induction fuel with
  | zero =>
      intro lo hi acc h1 h2 h3
      exact ⟨h1, h2, h3⟩
  | succ fuel ih =>
      intro lo hi acc h1 h2 h3
      unfold expandVA
      split_ifs with hacc hlo hhi hcmp hhi2
      · exact ⟨h1, h2, h3⟩
      · exact ih (lo - 1) hi _ (by omega) h2 h3
      · exact ih lo (hi + 1) _ h1 (by omega) hhi
      · exact ih (lo - 1) hi _ (by omega) h2 h3
      · exact ih lo (hi + 1) _ h1 (by omega) hhi2
      · exact ⟨h1, h2, h3⟩

lemma bucketSize_pos (candles : List Candle) (res : ℕ) (hres : 0 < res)
    (hlt : priceMinOf candles < priceMaxOf candles) :
    0 < bucketSizeOf candles res := by
  unfold bucketSizeOf
  apply div_pos (by linarith)
  exact_mod_cast hres

lemma priceMin_le_priceMax (candles : List Candle) (hne : candles ≠ [])
    (hwf : ∀ c ∈ candles, c.low ≤ c.high) :
    priceMinOf candles ≤ priceMaxOf candles := by
  cases candles with
  | nil => exact absurd rfl hne
  | cons c cs =>
      have h1 : priceMinOf (c :: cs) ≤ c.low :=
        listMinQ_le _ _ (List.mem_map_of_mem Candle.low (List.mem_cons_self c cs))
      have h2 : c.high ≤ priceMaxOf (c :: cs) :=
        le_listMaxQ _ _ (List.mem_map_of_mem Candle.high (List.mem_cons_self c cs))
      have h3 := hwf c (List.mem_cons_self c cs)
      linarith

lemma bucketLevel_mono (candles : List Candle) (res : ℕ) (i j : ℕ)
    (hij : i ≤ j) (hbs : 0 ≤ bucketSizeOf candles res) :
    bucketLevel candles res i ≤ bucketLevel candles res j := by
  unfold bucketLevel
  have hq : ((i : ℚ) + 1 / 2) ≤ ((j : ℚ) + 1 / 2) := by
    have : (i : ℚ) ≤ (j : ℚ) := by exact_mod_cast hij
    linarith
  have := mul_le_mul_of_nonneg_right hq hbs
  linarith

lemma priceMin_le_bucketLevel (candles : List Candle) (res : ℕ) (i : ℕ)
    (hbs : 0 ≤ bucketSizeOf candles res) :
    priceMinOf candles ≤ bucketLevel candles res i := by
  unfold bucketLevel
  have h1 : (0 : ℚ) ≤ ((i : ℚ) + 1 / 2) := by positivity
  have := mul_nonneg h1 hbs
  linarith

lemma bucketLevel_le_priceMax (candles : List Candle) (res : ℕ) (i : ℕ)
    (hi : i < res) (hle : priceMinOf candles ≤ priceMaxOf candles) :
    bucketLevel candles res i ≤ priceMaxOf candles := by
  have hres : 0 < res := by omega
  have hn : (0 : ℚ) < (res : ℚ) := by exact_mod_cast hres
  unfold bucketLevel bucketSizeOf
  have hiq : (i : ℚ) + 1 / 2 ≤ (res : ℚ) := by
    have : (i : ℚ) + 1 ≤ (res : ℚ) := by exact_mod_cast hi
    linarith
  have hD : 0 ≤ priceMaxOf candles - priceMinOf candles := by linarith
  have h1 : ((i : ℚ) + 1 / 2) *
      ((priceMaxOf candles - priceMinOf candles) / (res : ℚ)) ≤
      (res : ℚ) * ((priceMaxOf candles - priceMinOf candles) / (res : ℚ)) :=
    mul_le_mul_of_nonneg_right hiq (div_nonneg hD hn.le)
  have h2 : (res : ℚ) * ((priceMaxOf candles - priceMinOf candles) / (res : ℚ)) =
      priceMaxOf candles - priceMinOf candles := by
    field_simp
  rw [h2] at h1
  linarith

lemma sum_map_addQ {α : Type} (l : List α) (f g : α → ℚ) :
    (l.map (fun x => f x + g x)).sum = (l.map f).sum + (l.map g).sum := by
  induction l with
  | nil => simp
  | cons a l ih =>
      simp only [List.map_cons, List.sum_cons, ih]
      ring

lemma sum_range_if_eq (c : ℚ) (j n : ℕ) (hj : j < n) :
    ((List.range n).map (fun i => if j = i then c else 0)).sum = c := by
  induction n with
  | zero => omega
  | succ n ih =>
      rw [List.range_succ, List.map_append, List.sum_append]
      by_cases h : j = n
      · subst h
        have hz : ((List.range j).map (fun i => if j = i then c else 0)).sum = 0 := by
          apply List.sum_eq_zero
          intro x hx
          simp only [List.mem_map] at hx
          obtain ⟨i, hi, hix⟩ := hx
          rw [List.mem_range] at hi
          rw [← hix, if_neg (by omega)]
        simp [hz]
      · have hj2 : j < n := by omega
        rw [ih hj2]
        simp [h]

lemma sum_range_filter {α : Type} (f : α → ℚ) (g : α → ℕ) (l : List α) (n : ℕ)
    (hg : ∀ a ∈ l, g a < n) :
    ((List.range n).map
      (fun i => ((l.filter (fun a => g a = i)).map f).sum)).sum = (l.map f).sum := by
  induction l with
  | nil => simp
  | cons a l ih =>
      have hga : g a < n := hg a (List.mem_cons_self a l)
      have hrest : ∀ x ∈ l, g x < n := fun x hx => hg x (List.mem_cons_of_mem a hx)
      have hsplit : ∀ i ∈ List.range n,
          (fun i => (((a :: l).filter (fun x => g x = i)).map f).sum) i =
          (fun i => (if g a = i then f a else 0) +
            ((l.filter (fun x => g x = i)).map f).sum) i := by
        intro i _
        by_cases h : g a = i <;> simp [List.filter_cons, h]
      rw [List.map_congr_left hsplit, sum_map_addQ, sum_range_if_eq _ _ _ hga,
        ih hrest, List.map_cons, List.sum_cons]

lemma bucketIdx_lt (candles : List Candle) (res : ℕ) (hres : 0 < res) (c : ℚ) :
    bucketIdx candles res c < res := by
  unfold bucketIdx
  have := Nat.min_le_right
    (Int.toNat ⌊(c - priceMinOf candles) / bucketSizeOf candles res⌋) (res - 1)
  omega

lemma sum_bucketVolumes (candles : List Candle) (res : ℕ) (hres : 0 < res) :
    ((List.range res).map (bucketVolume candles res)).sum =
      (candles.map Candle.volume).sum := by
  have h := sum_range_filter Candle.volume
    (fun cd => bucketIdx candles res cd.close) candles res
    (fun a _ => bucketIdx_lt candles res hres a.close)
  have h2 : (List.range res).map (bucketVolume candles res) =
      (List.range res).map
        (fun i => ((candles.filter
          (fun a => bucketIdx candles res a.close = i)).map Candle.volume).sum) := rfl
  rw [h2, h]

/-- C2: every successfully built volume profile satisfies
`priceMin ≤ val ≤ poc ≤ vah ≤ priceMax`, and the bucket volumes sum exactly
to the window's total candle volume (exact rational equality, which implies
the 1e-6 relative tolerance). -/
theorem volumeProfile_invariants (candles : List Candle) (res : ℕ)
    (vp : VolumeProfile) (hres : 2 ≤ res)
    (hwf : ∀ c ∈ candles, c.low ≤ c.high)
    (h : calculateVolumeProfile candles res = some vp) :
    vp.priceMin ≤ vp.val ∧ vp.val ≤ vp.poc ∧ vp.poc ≤ vp.vah ∧
    vp.vah ≤ vp.priceMax ∧
    (vp.buckets.map VolumeBucket.volume).sum = (candles.map Candle.volume).sum := by
  unfold calculateVolumeProfile at h
  by_cases h2 : candles.length < 2
  · rw [if_pos h2] at h
    cases h
  rw [if_neg h2] at h
  by_cases h3 : priceMaxOf candles = priceMinOf candles
  · rw [if_pos h3] at h
    cases h
  rw [if_neg h3] at h
  injection h with h
  subst h
  have hres0 : 0 < res := by omega
  have hne : candles ≠ [] := by
    intro hc
    rw [hc] at h2
    simp at h2
  have hminmax : priceMinOf candles ≤ priceMaxOf candles :=
    priceMin_le_priceMax candles hne hwf
  have hlt : priceMinOf candles < priceMaxOf candles :=
    lt_of_le_of_ne hminmax (fun heq => h3 heq.symm)
  have hbs : 0 < bucketSizeOf candles res := bucketSize_pos candles res hres0 hlt
  have hp : pocIdxOf candles res < res := pocIdxOf_lt candles res hres0
  have hplen : pocIdxOf candles res < (volsOf candles res).length := by
    rw [volsOf_length]
    exact hp
  have hva := expandVA_range (volsOf candles res)
    ((7 / 10 : ℚ) * (volsOf candles res).sum) res (pocIdxOf candles res)
    (pocIdxOf candles res) (pocIdxOf candles res)
    ((volsOf candles res).getD (pocIdxOf candles res) 0)
    le_rfl le_rfl hplen
  have hva1 : (vaRangeOf candles res).1 ≤ pocIdxOf candles res := hva.1
  have hva2 : pocIdxOf candles res ≤ (vaRangeOf candles res).2 := hva.2.1
  have hva3 : (vaRangeOf candles res).2 < res := by
    have := hva.2.2
    rwa [volsOf_length] at this
  refine ⟨?_, ?_, ?_, ?_, ?_⟩
  · exact priceMin_le_bucketLevel candles res _ hbs.le
  · exact bucketLevel_mono candles res _ _ hva1 hbs.le
  · exact bucketLevel_mono candles res _ _ hva2 hbs.le
  · exact bucketLevel_le_priceMax candles res _ hva3 hminmax
  · show ((((List.range res).map _).map VolumeBucket.volume)).sum = _
    rw [List.map_map]
    have hcomp : (List.range res).map
        (VolumeBucket.volume ∘ (fun i =>
          (⟨bucketLevel candles res i, bucketVolume candles res i,
            bucketBuyVolume candles res i,
            bucketVolume candles res i - bucketBuyVolume candles res i⟩ :
            VolumeBucket))) =
        (List.range res).map (bucketVolume candles res) := rfl
    rw [hcomp, sum_bucketVolumes candles res hres0]

/-- The builder returns `none` exactly on the two guard conditions. -/
lemma calcVP_none_iff (candles : List Candle) (res : ℕ) :
    calculateVolumeProfile candles res = none ↔
      candles.length < 2 ∨ priceMaxOf candles = priceMinOf candles := by
  unfold calculateVolumeProfile
  by_cases h1 : candles.length < 2
  · simp [h1]
  by_cases h2 : priceMaxOf candles = priceMinOf candles
  · simp [h1, h2]
  · simp [h1, h2]

/-- Concrete two-candle window for the volume-profile witnesses. -/
def wCandles : List Candle :=
  [⟨1, 2, 3 / 2, 10, 4⟩, ⟨2, 3, 5 / 2, 20, 5⟩]

/-- The profile actually built from `wCandles` at resolution 2. -/
def wProfile : VolumeProfile :=
  (calculateVolumeProfile wCandles 2).getD ⟨[], 0, 0, 0, 0, 0, 0⟩

/-- The build on `wCandles` succeeds and produces `wProfile`. -/
lemma wProfile_spec : calculateVolumeProfile wCandles 2 = some wProfile := by
  have hne : calculateVolumeProfile wCandles 2 ≠ none := by
    intro hc
    have := (calcVP_none_iff wCandles 2).mp hc
    revert this
    decide
  obtain ⟨p, hp⟩ := Option.ne_none_iff_exists.mp hne
  unfold wProfile
  rw [← hp]
  rfl

/-- C2 witness: the two-candle window at resolution 2 yields a profile whose
levels are ordered and whose bucket volumes sum to the candle volumes. -/
theorem volumeProfile_invariants_witness :
    wProfile.priceMin ≤ wProfile.val ∧ wProfile.val ≤ wProfile.poc ∧
    wProfile.poc ≤ wProfile.vah ∧ wProfile.vah ≤ wProfile.priceMax ∧
    (wProfile.buckets.map VolumeBucket.volume).sum =
      (wCandles.map Candle.volume).sum :=
  volumeProfile_invariants wCandles 2 wProfile (by norm_num) (by decide)
    wProfile_spec

/-- C5: the builder fails (returns `none`, modelling `InsufficientData`) if
and only if the window has fewer than 2 candles or its maximum high equals
its minimum low; on every other input it returns a profile. -/
theorem volumeProfile_insufficient_iff (candles : List Candle) (res : ℕ)
    (_hres : 2 ≤ res) :
    calculateVolumeProfile candles res = none ↔
      candles.length < 2 ∨ priceMaxOf candles = priceMinOf candles :=
  calcVP_none_iff candles res

/-- C5 witness: the two-candle window has two candles and a nonzero range, and
the builder indeed succeeds on it. -/
theorem volumeProfile_insufficient_iff_witness :
    calculateVolumeProfile wCandles 2 = none ↔
      wCandles.length < 2 ∨ priceMaxOf wCandles = priceMinOf wCandles :=
  volumeProfile_insufficient_iff wCandles 2 (by norm_num)

/-- C9: the builder is deterministic — two invocations on identical candle
windows and resolutions produce identical profiles (same buckets, poc, vah,
val). -/
theorem volumeProfile_deterministic (c₁ c₂ : List Candle) (r₁ r₂ : ℕ)
    (hc : c₁ = c₂) (hr : r₁ = r₂) :
    calculateVolumeProfile c₁ r₁ = calculateVolumeProfile c₂ r₂ := by
  rw [hc, hr]

/-- C9 witness: two runs on the concrete window coincide. -/
theorem volumeProfile_deterministic_witness :
    calculateVolumeProfile wCandles 2 = calculateVolumeProfile wCandles 2 :=
  volumeProfile_deterministic wCandles wCandles 2 2 rfl rfl
